import Mathlib

/-
Verification development for the kilo-marketplace manifest generator
(bin/generate-modes-marketplace.ts) and the specified skill
synchronization engine.

The script reads every `*.yaml` file except `marketplace.yaml` from the
modes directory, parses each with `yaml.parse`, logs `mode.name`, sorts
the parsed values by `a.id.localeCompare(b.id)`, serializes them as one
YAML document `{ items }` with `lineWidth: 120`, and writes the result
to `marketplace.yaml` with `fs.writeFileSync`.
-/

/-- JavaScript values, restricted to the flat shape relevant to the script:
`null`, `undefined`, strings, and objects whose fields are strings (the
modelled parser below only produces flat string-valued mappings, which is
all the script's member accesses and the claims require). -/
inductive JVal where
  | vnull
  | vundefined
  | vstr (s : String)
  | vobj (fields : List (String × String))
deriving DecidableEq, Repr

/-- One entry of the modes directory: a file name plus its content. -/
structure DirEntry where
  name : String
  content : String
deriving DecidableEq, Repr

/-- The modes directory, as observed by `fs.readdirSync` plus
`fs.readFileSync`: the listing order is the order `readdirSync` returns. -/
abbrev Dir := List DirEntry

/-- Errors of the modelled yaml parser (`yaml.parse` throwing). -/
inductive ParseErr where
  | malformed
deriving DecidableEq, Repr

/-- Uncaught JavaScript exceptions that abort the script:
a `yaml.parse` throw, or a TypeError from a member access / method call
on a value that does not support it. -/
inductive RunErr where
  | parseFailure
  | typeError
deriving DecidableEq, Repr

instance [DecidableEq ε] [DecidableEq α] : DecidableEq (Except ε α) := fun a b =>
  match a, b with
  | .error e, .error e' =>
    if h : e = e' then .isTrue (by rw [h]) else .isFalse (by intro hc; cases hc; exact h rfl)
  | .error _, .ok _ => .isFalse (by intro hc; cases hc)
  | .ok _, .error _ => .isFalse (by intro hc; cases hc)
  | .ok v, .ok v' =>
    if h : v = v' then .isTrue (by rw [h]) else .isFalse (by intro hc; cases hc; exact h rfl)

/-- Error-propagating map over a list, the shape in which the script's
`.map` callback (which can throw) executes: the first thrown exception
aborts the whole expression. -/
def mapME (f : α → Except ε β) : List α → Except ε (List β)
  | [] => .ok []
  | a :: l =>
    match f a with
    | .error e => .error e
    | .ok b =>
      match mapME f l with
      | .error e => .error e
      | .ok bs => .ok (b :: bs)

/-- JavaScript member access `v[k]`: throws a TypeError on `null` and
`undefined`, yields `undefined` for an absent property, and yields the
property value on an object. A string receiver has no such data
properties, so the access yields `undefined`. -/
def jsMember : JVal → String → Except RunErr JVal
  | .vnull, _ => .error .typeError
  | .vundefined, _ => .error .typeError
  | .vstr _, _ => .ok .vundefined
  | .vobj fs, k =>
    match fs.lookup k with
    | some s => .ok (.vstr s)
    | none => .ok .vundefined

/-- Model of JavaScript `String.prototype.endsWith`, computed over the
character list so that it evaluates inside the kernel. -/
def strEndsWith (s post : String) : Bool :=
  s.data.drop (s.data.length - post.data.length) == post.data

/-- Whether a document is blank (spaces and line breaks only); `yaml.parse`
returns `null` for such a document. -/
def isBlank (s : String) : Bool :=
  s.data.all (fun c => c == ' ' || c == '\n' || c == '\t' || c == '\r')

/-- Whether the first list starts with the second. -/
def startsWithList : List Char → List Char → Bool
  | _, [] => true
  | [], _ :: _ => false
  | a :: as, b :: bs => a == b && startsWithList as bs

/-- Fuel-driven splitting of a character list at every occurrence of a
nonempty separator (the fuel, at least the list length, makes the
recursion structural so it evaluates inside the kernel). -/
def splitGo (sep : List Char) : Nat → List Char → List Char → List (List Char)
  | 0, acc, _ => [acc.reverse]
  | _ + 1, acc, [] => [acc.reverse]
  | fuel + 1, acc, c :: rest =>
    if startsWithList (c :: rest) sep then
      acc.reverse :: splitGo sep fuel [] ((c :: rest).drop sep.length)
    else splitGo sep fuel (c :: acc) rest

/-- String splitting on a separator, as `String.prototype.split` and
`String.splitOn` behave on the inputs of this development. -/
def splitOnStr (sep s : String) : List String :=
  if sep.data.isEmpty then [s]
  else (splitGo sep.data (s.data.length + 1) [] s.data).map String.mk

/-- The filter of line 19 of the script:
`file.endsWith(".yaml") && file !== "marketplace.yaml"`. -/
def isInputFile (name : String) : Bool :=
  strEndsWith name ".yaml" && name != "marketplace.yaml"

/-- The files the script selects for parsing (readdir + filter). -/
def selectedFiles (d : Dir) : Dir :=
  d.filter (fun e => isInputFile e.name)

/-- Processing of one selected file inside the `.map` callback:
`yaml.parse(content)` (a throw aborts the run), then the template
literal of the log line evaluates `mode.name` (a TypeError on a `null`
parse result aborts the run), and the parsed value is returned. -/
def processFile (parse : String → Except ParseErr JVal) (f : DirEntry) :
    Except RunErr JVal :=
  match parse f.content with
  | .error _ => .error .parseFailure
  | .ok mode =>
    match jsMember mode "name" with
    | .error e => .error e
    | .ok _ => .ok mode

/-- The parse/map stage over all selected files. -/
def readItems (parse : String → Except ParseErr JVal) (files : List DirEntry) :
    Except RunErr (List JVal) :=
  mapME (processFile parse) files

/-- Mark used by the ICU tertiary level: lowercase sorts before uppercase. -/
def tertMark (c : Char) : Char :=
  if c.isUpper then '\x02' else '\x01'

/-- Collation key modelling `String.prototype.localeCompare` under Node's
default ICU collation, restricted to ASCII ids: the primary level
compares case-folded characters, and only on a primary tie does the
tertiary level (lowercase before uppercase) decide. The two levels are
concatenated around a separator smaller than every other character. -/
def collKey (s : String) : List Char :=
  s.data.map Char.toLower ++ '\x00' :: s.data.map tertMark

/-- Boolean lexicographic order on character lists. -/
def lexLe : List Char → List Char → Bool
  | [], _ => true
  | _ :: _, [] => false
  | a :: as, b :: bs =>
    if a < b then true
    else if b < a then false
    else lexLe as bs

/-- Model of `a.localeCompare(b)`: negative, zero or positive according to
the collation keys. -/
def localeCompare (s t : String) : Int :=
  if lexLe (collKey s) (collKey t) then
    (if lexLe (collKey t) (collKey s) then 0 else -1)
  else 1

/-- Plain code-point lexicographic strict order on strings, the ordering
the specification's words "lexicographic ordering" denote; stated as a
separate definition to compare against the collation the code uses. -/
def lexLt : List Char → List Char → Bool
  | [], [] => false
  | [], _ :: _ => true
  | _ :: _, [] => false
  | a :: as, b :: bs =>
    if a < b then true
    else if b < a then false
    else lexLt as bs

/-- The comparator receiver/argument of line 26: `a.id` must be a string
for `.localeCompare` to exist; the sort key is paired with the item. -/
def idKeyOf (v : JVal) : Except RunErr (String × JVal) :=
  match jsMember v "id" with
  | .error e => .error e
  | .ok (.vstr s) => .ok (s, v)
  | .ok _ => .error .typeError

/-- The comparator ordering used by the sort: `a.id.localeCompare(b.id) <= 0`. -/
def sortRel (p q : String × JVal) : Prop :=
  localeCompare p.1 q.1 ≤ 0

instance : DecidableRel sortRel := fun p q => by
  unfold sortRel; infer_instance

/-- `items.sort((a, b) => a.id.localeCompare(b.id))`: with at most one
element the comparator is never invoked; otherwise every element's `id`
is accessed as a receiver of `.localeCompare` (TypeError unless it is a
string) and the list is stably sorted by the comparator, as
`Array.prototype.sort` guarantees. -/
def jsSortItems (items : List JVal) : Except RunErr (List JVal) :=
  if items.length ≤ 1 then .ok items
  else
    match mapME idKeyOf items with
    | .error e => .error e
    | .ok ks => .ok ((List.insertionSort sortRel ks).map Prod.snd)

/-- Greedy refill of the remaining words of a scalar being folded: a word
is appended to the current line while the width 120 is respected,
otherwise the line is emitted and the word starts a continuation line. -/
def foldFill (cont : String) (cur : String) : List String → List String
  | [] => [cur]
  | w :: ws =>
    if cur.length + 1 + w.length ≤ 120 then foldFill cont (cur ++ " " ++ w) ws
    else cur :: foldFill cont (cont ++ w) ws

/-- Model of the yaml library's plain-scalar emission under
`lineWidth: 120`: a line within the width is emitted as is; an overlong
line is folded, but — as the library documents, the width is a soft
limit — folding can only happen at spaces, so a single overlong token
stays on one line. -/
def emitScalar (pre cont v : String) : List String :=
  if pre.length + v.length ≤ 120 then [pre ++ v]
  else
    match splitOnStr " " v with
    | [] => [pre ++ v]
    | w :: ws => foldFill cont (pre ++ w) ws

/-- One `key: value` field of an item, at the given indentation. -/
def emitField (pre : String) (kv : String × String) : List String :=
  emitScalar (pre ++ kv.1 ++ ": ") "      " kv.2

/-- The lines of one sequence item of the aggregate document. -/
def emitItem : JVal → List String
  | .vnull => ["  - null"]
  | .vundefined => ["  - null"]
  | .vstr s => emitScalar "  - " "    " s
  | .vobj [] => ["  - \x7b\x7d"]
  | .vobj (kv :: rest) =>
    emitField "  - " kv ++ rest.flatMap (fun p => emitField "    " p)

/-- The lines of all items, concatenated in order. -/
def linesOfItems : List JVal → List String
  | [] => []
  | v :: vs => emitItem v ++ linesOfItems vs

/-- The lines of `new Document({ items }).toString({ lineWidth: 120 })`. -/
def docLines (items : List JVal) : List String :=
  match items with
  | [] => ["items: []"]
  | _ => "items:" :: linesOfItems items

/-- The serialized aggregate document (the lines joined by newlines, with
the trailing newline the library emits). -/
def docToString (items : List JVal) : String :=
  String.intercalate "\n" (docLines items) ++ "\n"

/-- The whole computation of the script on the selected files: parse/map,
sort, serialize. -/
def generateFromFiles (parse : String → Except ParseErr JVal)
    (files : List DirEntry) : Except RunErr String :=
  match readItems parse files with
  | .error e => .error e
  | .ok items =>
    match jsSortItems items with
    | .error e => .error e
    | .ok sorted => .ok (docToString sorted)

/-- One run of the manifest generator over a directory state: the output
document, or the uncaught exception that aborted the run. -/
def generate (parse : String → Except ParseErr JVal) (d : Dir) :
    Except RunErr String :=
  generateFromFiles parse (selectedFiles d)

/-- Writing (or creating) a file inside the directory state. -/
def upsert (d : Dir) (n c : String) : Dir :=
  if d.any (fun e => e.name == n) then
    d.map (fun e => if e.name == n then ⟨n, c⟩ else e)
  else d ++ [⟨n, c⟩]

/-- The observable intermediate file contents of `fs.writeFileSync`, which
overwrites the target in place: the file is truncated (empty content)
and the new content is then written sequentially, so every prefix of the
new content is an observable intermediate state. -/
def writeTrace (c : String) : List String :=
  (List.range (c.data.length + 1)).map (fun n => String.mk (c.data.take n))

/-- The sequence of observable directory states of one run: the initial
state, then — only if generation succeeded and the write is reached —
the states of the in-place overwrite of `marketplace.yaml`. -/
def runStates (parse : String → Except ParseErr JVal) (d : Dir) : List Dir :=
  match generate parse d with
  | .error _ => [d]
  | .ok out => d :: (writeTrace out).map (fun c => upsert d "marketplace.yaml" c)

/-- Model of `yaml.parse` restricted to the flat documents used as
concrete inputs in this development: a blank document parses to `null`;
otherwise every nonempty line must have the shape `key: value`, yielding
a flat mapping, and anything else throws. -/
def parseLine (l : String) : Except ParseErr (String × String) :=
  match splitOnStr ": " l with
  | [k, v] => .ok (k, v)
  | _ => .error .malformed

/-- See `parseLine`; the whole-document model of `yaml.parse`. -/
def parseFlatYaml (s : String) : Except ParseErr JVal :=
  if isBlank s then .ok .vnull
  else
    match mapME parseLine ((splitOnStr "\n" s).filter (fun l => l != "")) with
    | .error e => .error e
    | .ok fields => .ok (.vobj fields)

/-- Whether an `Except` result is an error (a thrown exception). -/
def isErrB : Except ε α → Bool
  | .error _ => true
  | .ok _ => false

theorem filter_map_upsert (c : String) (d : Dir) :
    (d.map (fun e =>
        if e.name == "marketplace.yaml" then
          (⟨"marketplace.yaml", c⟩ : DirEntry) else e)).filter
      (fun e => isInputFile e.name) =
      d.filter (fun e => isInputFile e.name) := by
  induction d with
  | nil => rfl
  | cons e t ih =>
    rw [List.map_cons, List.filter_cons, List.filter_cons]
    by_cases he : e.name = "marketplace.yaml"
    · simp only [he, beq_self_eq_true, if_true]
      rw [if_neg (by decide), if_neg (by simp [isInputFile, he]), ih]
    · rw [if_neg (show ¬((e.name == "marketplace.yaml") = true) by simp [he])]
      by_cases hp : isInputFile e.name = true
      · rw [if_pos hp, if_pos hp, ih]
      · rw [if_neg hp, if_neg hp, ih]

theorem selectedFiles_upsert_marketplace (d : Dir) (c : String) :
    selectedFiles (upsert d "marketplace.yaml" c) = selectedFiles d := by
  unfold upsert selectedFiles
  split
  · exact filter_map_upsert c d
  · rw [List.filter_append]
    simp [isInputFile]

theorem isErrB_mapME_of_mem {f : α → Except ε β} {l : List α} {x : α}
    (hx : x ∈ l) (hfx : isErrB (f x) = true) : isErrB (mapME f l) = true := by
  induction l with
  | nil => cases hx
  | cons a t ih =>
    rcases List.mem_cons.mp hx with h | h
    · subst h
      cases hfa : f x with
      | error e => simp [mapME, hfa, isErrB]
      | ok b => rw [hfa] at hfx; simp [isErrB] at hfx
    · cases hfa : f a with
      | error e => simp [mapME, hfa, isErrB]
      | ok b =>
        have h2 := ih h
        cases hm : mapME f t with
        | error e => simp [mapME, hfa, hm, isErrB]
        | ok bs => rw [hm] at h2; simp [isErrB] at h2

theorem mapME_ok_length {f : α → Except ε β} {l : List α} {bs : List β}
    (h : mapME f l = .ok bs) : bs.length = l.length := by
  induction l generalizing bs with
  | nil => simp [mapME] at h; subst h; rfl
  | cons a t ih =>
    unfold mapME at h
    cases hfa : f a with
    | error e => rw [hfa] at h; cases h
    | ok b =>
      rw [hfa] at h
      cases hm : mapME f t with
      | error e => rw [hm] at h; cases h
      | ok cs =>
        rw [hm] at h
        cases h
        simp [ih hm]

theorem mapME_ok_mem {f : α → Except ε β} {l : List α} {bs : List β}
    (h : mapME f l = .ok bs) : ∀ b ∈ bs, ∃ a ∈ l, f a = .ok b := by
  induction l generalizing bs with
  | nil =>
    simp [mapME] at h
    subst h
    intro b hb
    cases hb
  | cons a t ih =>
    unfold mapME at h
    cases hfa : f a with
    | error e => rw [hfa] at h; cases h
    | ok b =>
      rw [hfa] at h
      cases hm : mapME f t with
      | error e => rw [hm] at h; cases h
      | ok cs =>
        rw [hm] at h
        cases h
        intro x hx
        rcases List.mem_cons.mp hx with hx | hx
        · subst hx
          exact ⟨a, List.mem_cons_self a t, hfa⟩
        · rcases ih hm x hx with ⟨y, hy, hfy⟩
          exact ⟨y, List.mem_cons_of_mem a hy, hfy⟩

theorem mapME_ok_of_forall {f : α → Except ε β} {l : List α}
    (h : ∀ a ∈ l, ∃ b, f a = .ok b) : ∃ bs, mapME f l = .ok bs := by
  induction l with
  | nil => exact ⟨[], rfl⟩
  | cons a t ih =>
    rcases h a (List.mem_cons_self a t) with ⟨b, hb⟩
    rcases ih (fun x hx => h x (List.mem_cons_of_mem a hx)) with ⟨bs, hbs⟩
    exact ⟨b :: bs, by simp [mapME, hb, hbs]⟩

theorem lexLe_total : ∀ as bs : List Char, lexLe as bs = true ∨ lexLe bs as = true
  | [], _ => Or.inl rfl
  | _ :: _, [] => Or.inr rfl
  | a :: as, b :: bs => by
    rcases lt_trichotomy a b with h | h | h
    · left
      unfold lexLe
      rw [if_pos h]
    · subst h
      rcases lexLe_total as bs with h2 | h2
      · left
        unfold lexLe
        rw [if_neg (lt_irrefl a), if_neg (lt_irrefl a)]
        exact h2
      · right
        unfold lexLe
        rw [if_neg (lt_irrefl a), if_neg (lt_irrefl a)]
        exact h2
    · right
      unfold lexLe
      rw [if_pos h]

theorem lexLe_trans : ∀ as bs cs : List Char,
    lexLe as bs = true → lexLe bs cs = true → lexLe as cs = true
  | [], _, _, _, _ => rfl
  | _ :: _, [], _, h1, _ => by simp [lexLe] at h1
  | _ :: _, _ :: _, [], _, h2 => by simp [lexLe] at h2
  | a :: as, b :: bs, c :: cs, h1, h2 => by
    unfold lexLe at h1 h2 ⊢
    by_cases hab : a < b
    · by_cases hbc : b < c
      · rw [if_pos (lt_trans hab hbc)]
      · by_cases hcb : c < b
        · rw [if_neg hbc, if_pos hcb] at h2
          exact absurd h2 (by simp)
        · have hbceq : b = c := le_antisymm (not_lt.mp hcb) (not_lt.mp hbc)
          subst hbceq
          rw [if_pos hab]
    · by_cases hba : b < a
      · rw [if_neg hab, if_pos hba] at h1
        exact absurd h1 (by simp)
      · have habeq : a = b := le_antisymm (not_lt.mp hba) (not_lt.mp hab)
        subst habeq
        rw [if_neg (lt_irrefl a), if_neg (lt_irrefl a)] at h1
        by_cases hac : a < c
        · rw [if_pos hac]
        · by_cases hca : c < a
          · rw [if_neg hac, if_pos hca] at h2
            exact absurd h2 (by simp)
          · rw [if_neg hac, if_neg hca] at h2 ⊢
            exact lexLe_trans as bs cs h1 h2

theorem localeCompare_nonpos_iff {s t : String} :
    localeCompare s t ≤ 0 ↔ lexLe (collKey s) (collKey t) = true := by
  unfold localeCompare
  by_cases h1 : lexLe (collKey s) (collKey t) = true
  · rw [if_pos h1]
    constructor
    · intro _
      exact h1
    · intro _
      split <;> norm_num
  · rw [if_neg h1]
    constructor
    · intro h
      norm_num at h
    · intro h
      exact absurd h h1

instance : IsTotal (String × JVal) sortRel :=
  ⟨fun p q => by
    unfold sortRel
    rcases lexLe_total (collKey p.1) (collKey q.1) with h | h
    · exact Or.inl (localeCompare_nonpos_iff.mpr h)
    · exact Or.inr (localeCompare_nonpos_iff.mpr h)⟩

instance : IsTrans (String × JVal) sortRel :=
  ⟨fun p q r h1 h2 => by
    unfold sortRel at h1 h2 ⊢
    exact localeCompare_nonpos_iff.mpr
      (lexLe_trans _ _ _ (localeCompare_nonpos_iff.mp h1)
        (localeCompare_nonpos_iff.mp h2))⟩

theorem generate_isErr_of_bad (parse : String → Except ParseErr JVal) (d : Dir)
    (f : DirEntry) (hmem : f ∈ selectedFiles d)
    (hbad : isErrB (parse f.content) = true ∨ parse f.content = .ok .vnull) :
    isErrB (generate parse d) = true := by
  have hpf : isErrB (processFile parse f) = true := by
    unfold processFile
    rcases hbad with h | h
    · cases hp : parse f.content with
      | error e => simp [isErrB]
      | ok v => rw [hp] at h; simp [isErrB] at h
    · rw [h]
      simp [jsMember, isErrB]
  have hri : isErrB (readItems parse (selectedFiles d)) = true :=
    isErrB_mapME_of_mem hmem hpf
  unfold generate generateFromFiles
  cases hr : readItems parse (selectedFiles d) with
  | error e => simp [isErrB]
  | ok items => rw [hr] at hri; simp [isErrB] at hri

/-- C6 (confirmed): the aggregate document is fully regenerated on each
build — whatever content the previously written `marketplace.yaml` holds
(including its absence), the run's result is identical, because the
output file is excluded from the inputs; prior manifest content never
flows into the new output. -/
theorem c6_prior_manifest_independent (parse : String → Except ParseErr JVal)
    (d : Dir) (c : String) :
    generate parse (upsert d "marketplace.yaml" c) = generate parse d := by
  unfold generate
  rw [selectedFiles_upsert_marketplace]

/-- C5 (confirmed): running the builder twice on an unchanged registry
yields byte-identical output — after the first run writes its output to
`marketplace.yaml`, a second run over the resulting directory produces
exactly the same document, because the output file is filtered out of
the inputs. -/
theorem c5_idempotent (parse : String → Except ParseErr JVal) (d : Dir)
    (out : String) (h : generate parse d = .ok out) :
    generate parse (upsert d "marketplace.yaml" out) = .ok out := by
  unfold generate at h ⊢
  rw [selectedFiles_upsert_marketplace]
  exact h

/-- Witness for C5 at a concrete one-file registry. -/
theorem c5_witness :
    generate parseFlatYaml
      (upsert [⟨"a.yaml", "id: a"⟩] "marketplace.yaml" "items:\n  - id: a\n") =
      .ok "items:\n  - id: a\n" :=
  c5_idempotent parseFlatYaml [⟨"a.yaml", "id: a"⟩] "items:\n  - id: a\n" (by decide)

/-- C9 (confirmed): only files whose name ends in `.yaml` and is not
exactly `marketplace.yaml` are selected for parsing, so no entry of the
aggregate document ever originates from the aggregate document itself. -/
theorem c9_only_input_files (d : Dir) (e : DirEntry) (h : e ∈ selectedFiles d) :
    strEndsWith e.name ".yaml" = true ∧ e.name ≠ "marketplace.yaml" := by
  unfold selectedFiles at h
  have hp := List.of_mem_filter h
  unfold isInputFile at hp
  rw [Bool.and_eq_true] at hp
  refine ⟨hp.1, ?_⟩
  intro hn
  have h2 := hp.2
  rw [hn] at h2
  simp at h2

/-- Witness for C9 at a concrete selected file. -/
theorem c9_witness :
    strEndsWith "a.yaml" ".yaml" = true ∧ ("a.yaml" : String) ≠ "marketplace.yaml" :=
  c9_only_input_files [⟨"a.yaml", "id: a"⟩] ⟨"a.yaml", "id: a"⟩ (by decide)

/-- C10 (confirmed): if any selected input file fails to parse, or parses
to `null` (so that the accessed fields are unavailable and the member
access throws), the run aborts with an uncaught exception before the
output write is reached, and the directory — in particular the
previously written aggregate document — is left unchanged. -/
theorem c10_abort_before_write (parse : String → Except ParseErr JVal) (d : Dir)
    (f : DirEntry) (hmem : f ∈ selectedFiles d)
    (hbad : isErrB (parse f.content) = true ∨ parse f.content = .ok .vnull) :
    isErrB (generate parse d) = true ∧ runStates parse d = [d] := by
  have hg := generate_isErr_of_bad parse d f hmem hbad
  refine ⟨hg, ?_⟩
  unfold runStates
  cases hgen : generate parse d with
  | error e => rfl
  | ok out => rw [hgen] at hg; simp [isErrB] at hg

/-- Witness for C10: an empty file parses to `null` and aborts the run. -/
theorem c10_witness :
    isErrB (generate parseFlatYaml [⟨"empty.yaml", ""⟩]) = true ∧
      runStates parseFlatYaml [⟨"empty.yaml", ""⟩] = [[⟨"empty.yaml", ""⟩]] :=
  c10_abort_before_write parseFlatYaml [⟨"empty.yaml", ""⟩] ⟨"empty.yaml", ""⟩
    (by decide) (Or.inr (by decide))

/-- C2 (counterexample): an input file whose metadata cannot be parsed is
NOT skipped with a warning — with one unparsable file next to a valid
one, the run aborts with the parse exception instead of producing the
aggregate document from the remaining entries, contradicting the claim. -/
theorem c2_counterexample :
    generate parseFlatYaml [⟨"bad.yaml", "\x7b"⟩, ⟨"good.yaml", "id: a"⟩] =
      .error RunErr.parseFailure := by decide

/-- C2 as amended (proved): an unparsable input file is never skipped —
the builder produces an aggregate document only when every selected file
parses; the presence of an unparsable file is fatal to the whole run. -/
theorem c2_amended_no_skip (parse : String → Except ParseErr JVal) (d : Dir)
    (out : String) (h : generate parse d = .ok out) :
    ∀ f ∈ selectedFiles d, isErrB (parse f.content) = false := by
  intro f hf
  cases hb : isErrB (parse f.content) with
  | false => rfl
  | true =>
    have hg := generate_isErr_of_bad parse d f hf (Or.inl hb)
    rw [h] at hg
    simp [isErrB] at hg

/-- Witness for the amended C2 at a concrete successful run. -/
theorem c2_amended_witness :
    isErrB (parseFlatYaml "id: z") = false :=
  c2_amended_no_skip parseFlatYaml [⟨"ok.yaml", "id: z"⟩] "items:\n  - id: z\n"
    (by decide) ⟨"ok.yaml", "id: z"⟩ (by decide)

/-- C3 (counterexample): the write of the aggregate document is not
atomic — the script overwrites `marketplace.yaml` in place, so the run
passes through an intermediate state in which the file at the output
location is empty, which is neither the complete old document
(`"items: old"`) nor the complete new one. -/
theorem c3_counterexample :
    [DirEntry.mk "marketplace.yaml" "", DirEntry.mk "a.yaml" "id: a"] ∈
      runStates parseFlatYaml
        [DirEntry.mk "marketplace.yaml" "items: old", DirEntry.mk "a.yaml" "id: a"] ∧
    ("" : String) ≠ "items: old" ∧
    ("" : String) ≠ "items:\n  - id: a\n" ∧
    generate parseFlatYaml
        [DirEntry.mk "marketplace.yaml" "items: old", DirEntry.mk "a.yaml" "id: a"] =
      .ok "items:\n  - id: a\n" := by decide

/-- C3 as amended (proved): the overwrite is an in-place truncating
write, so an interruption mid-write leaves some prefix of the new
document (possibly empty, i.e. truncated) at the output location —
every intermediate observable content is a prefix of the new document. -/
theorem c3_amended_prefix_states (c : String) (s : String)
    (h : s ∈ writeTrace c) : s.data <+: c.data := by
  unfold writeTrace at h
  rcases List.mem_map.mp h with ⟨n, _, hs⟩
  subst hs
  exact List.take_prefix n c.data

/-- Witness for the amended C3 at a concrete intermediate state. -/
theorem c3_amended_witness : ("a" : String).data <+: ("ab" : String).data :=
  c3_amended_prefix_states "ab" "a" (by decide)

/-- The sorted item list a successful run serializes (empty on an aborted
run); `generate` emits exactly `docToString` of this list. -/
def sortedItems (parse : String → Except ParseErr JVal) (d : Dir) : List JVal :=
  match readItems parse (selectedFiles d) with
  | .error _ => []
  | .ok items =>
    match jsSortItems items with
    | .error _ => []
    | .ok sorted => sorted

theorem processFile_ok {parse : String → Except ParseErr JVal} {f : DirEntry}
    {v : JVal} (h : processFile parse f = .ok v) : parse f.content = .ok v := by
  unfold processFile at h
  split at h
  · cases h
  · split at h
    · cases h
    · cases h
      assumption

theorem jsSortItems_ok_of_ids {items : List JVal}
    (h : ∀ v ∈ items, ∃ s fs, v = .vobj fs ∧ fs.lookup "id" = some s) :
    ∃ sorted, jsSortItems items = .ok sorted ∧ sorted.length = items.length := by
  unfold jsSortItems
  by_cases hl : items.length ≤ 1
  · rw [if_pos hl]
    exact ⟨items, rfl, rfl⟩
  · rw [if_neg hl]
    have hall : ∀ v ∈ items, ∃ p, idKeyOf v = .ok p := by
      intro v hv
      rcases h v hv with ⟨s, fs, rfl, hlk⟩
      exact ⟨(s, .vobj fs), by simp [idKeyOf, jsMember, hlk]⟩
    rcases mapME_ok_of_forall hall with ⟨ks, hks⟩
    rw [hks]
    refine ⟨_, rfl, ?_⟩
    rw [List.length_map, List.length_insertionSort]
    exact mapME_ok_length hks

/-- C1 (counterexample): two entries sharing `id = "dup"` do NOT make
manifest generation fail — the run succeeds and emits both entries,
contradicting the claimed `DuplicateIdError`. -/
theorem c1_counterexample :
    generate parseFlatYaml [⟨"d1.yaml", "id: dup"⟩, ⟨"d2.yaml", "id: dup"⟩] =
      .ok "items:\n  - id: dup\n  - id: dup\n" := by decide

/-- C1 as amended (proved): duplicate `id` values are not detected — when
every selected file parses to a mapping with a string `id`, generation
succeeds (never a duplicate-id failure) and the output contains exactly
one entry per selected file, duplicates included (so indeed no entry is
silently dropped, but no error is raised either). -/
theorem c1_amended_duplicates_kept (parse : String → Except ParseErr JVal)
    (d : Dir)
    (hgood : ∀ f ∈ selectedFiles d, ∃ s fs,
      parse f.content = .ok (.vobj fs) ∧ fs.lookup "id" = some s) :
    generate parse d = .ok (docToString (sortedItems parse d)) ∧
      (sortedItems parse d).length = (selectedFiles d).length := by
  have hall : ∀ f ∈ selectedFiles d, ∃ v, processFile parse f = .ok v := by
    intro f hf
    rcases hgood f hf with ⟨s, fs, hp, _⟩
    refine ⟨.vobj fs, ?_⟩
    cases hn : List.lookup "name" fs with
    | none => simp [processFile, hp, jsMember, hn]
    | some s2 => simp [processFile, hp, jsMember, hn]
  rcases mapME_ok_of_forall hall with ⟨items, hitems⟩
  have hlen : items.length = (selectedFiles d).length := mapME_ok_length hitems
  have hids : ∀ v ∈ items, ∃ s fs, v = .vobj fs ∧ fs.lookup "id" = some s := by
    intro v hv
    rcases mapME_ok_mem hitems v hv with ⟨f, hf, hpf⟩
    have hp := processFile_ok hpf
    rcases hgood f hf with ⟨s, fs, hp2, hlk⟩
    have h3 := hp2.symm.trans hp
    injection h3 with h4
    exact ⟨s, fs, h4.symm, hlk⟩
  rcases jsSortItems_ok_of_ids hids with ⟨sorted, hsort, hslen⟩
  have hri : readItems parse (selectedFiles d) = .ok items := hitems
  have hsi : sortedItems parse d = sorted := by
    unfold sortedItems
    rw [hri]
    show (match jsSortItems items with
      | Except.error _ => []
      | Except.ok sorted => sorted) = sorted
    rw [hsort]
  constructor
  · unfold generate generateFromFiles
    rw [hri]
    show (match jsSortItems items with
      | Except.error e => Except.error e
      | Except.ok sorted => Except.ok (docToString sorted)) =
      Except.ok (docToString (sortedItems parse d))
    rw [hsort, hsi]
  · rw [hsi, hslen, hlen]

/-- Witness for the amended C1 at a registry with a duplicated id. -/
theorem c1_amended_witness :
    generate parseFlatYaml [⟨"d1.yaml", "id: dup"⟩, ⟨"d2.yaml", "id: dup"⟩] =
      .ok (docToString
        (sortedItems parseFlatYaml [⟨"d1.yaml", "id: dup"⟩, ⟨"d2.yaml", "id: dup"⟩])) ∧
    (sortedItems parseFlatYaml
        [⟨"d1.yaml", "id: dup"⟩, ⟨"d2.yaml", "id: dup"⟩]).length =
      (selectedFiles [⟨"d1.yaml", "id: dup"⟩, ⟨"d2.yaml", "id: dup"⟩]).length :=
  c1_amended_duplicates_kept parseFlatYaml
    [⟨"d1.yaml", "id: dup"⟩, ⟨"d2.yaml", "id: dup"⟩] (by
      intro f hf
      rw [show selectedFiles [⟨"d1.yaml", "id: dup"⟩, ⟨"d2.yaml", "id: dup"⟩] =
          [⟨"d1.yaml", "id: dup"⟩, ⟨"d2.yaml", "id: dup"⟩] from rfl] at hf
      rcases List.mem_cons.mp hf with rfl | hf2
      · exact ⟨"dup", [("id", "dup")], rfl, rfl⟩
      · rcases List.mem_cons.mp hf2 with rfl | hf3
        · exact ⟨"dup", [("id", "dup")], rfl, rfl⟩
        · cases hf3)

/-- The `id` a serialized entry carries (empty when absent): used to state
in what order the emitted entries appear. -/
def idOf : JVal → String
  | .vobj fs =>
    match fs.lookup "id" with
    | some s => s
    | none => ""
  | _ => ""

theorem idOf_of_jsMember {v : JVal} {s : String}
    (h : jsMember v "id" = .ok (.vstr s)) : idOf v = s := by
  cases v with
  | vnull => simp [jsMember] at h
  | vundefined => simp [jsMember] at h
  | vstr t => simp [jsMember] at h
  | vobj fs =>
    cases hl : List.lookup "id" fs with
    | none => simp [jsMember, hl] at h
    | some t =>
      simp [jsMember, hl] at h
      simp [idOf, hl, h]

/-- C4 (counterexample): the emitted order is NOT plain lexicographic —
with ids `"a"` and `"B"`, the id `"B"` lexicographically precedes `"a"`
(uppercase code points come first), yet the entry with id `"a"` appears
earlier in the output, because the comparator is `localeCompare`
(case-insensitive primary level), not code-point order. -/
theorem c4_counterexample :
    generate parseFlatYaml [⟨"x.yaml", "id: a"⟩, ⟨"y.yaml", "id: B"⟩] =
      .ok "items:\n  - id: a\n  - id: B\n" ∧
    lexLt "B".data "a".data = true := by decide

/-- C4 as amended (proved): the entries of every successful sort are in
ascending order of the `localeCompare` collation on their `id` fields —
an ordering that agrees with lexicographic order on ids differing in
case-folded characters but not in general. -/
theorem c4_amended_sorted_by_collation (items out : List JVal)
    (h : jsSortItems items = .ok out) :
    List.Pairwise (fun a b => localeCompare (idOf a) (idOf b) ≤ 0) out := by
  unfold jsSortItems at h
  by_cases hl : items.length ≤ 1
  · rw [if_pos hl] at h
    cases h
    cases items with
    | nil => exact List.Pairwise.nil
    | cons a t =>
      cases t with
      | nil => simp
      | cons b t2 => simp at hl
  · rw [if_neg hl] at h
    cases hks : mapME idKeyOf items with
    | error e => rw [hks] at h; cases h
    | ok ks =>
      rw [hks] at h
      cases h
      have hsorted : List.Pairwise sortRel (List.insertionSort sortRel ks) :=
        List.sorted_insertionSort sortRel ks
      have hkey : ∀ p ∈ List.insertionSort sortRel ks,
          jsMember p.2 "id" = .ok (.vstr p.1) := by
        intro p hp
        have hp2 : p ∈ ks := (List.mem_insertionSort sortRel).mp hp
        rcases mapME_ok_mem hks p hp2 with ⟨v, _, hid⟩
        unfold idKeyOf at hid
        cases hj : jsMember v "id" with
        | error e => rw [hj] at hid; cases hid
        | ok w =>
          rw [hj] at hid
          cases w with
          | vstr s =>
            cases hid
            exact hj
          | vnull => cases hid
          | vundefined => cases hid
          | vobj fs2 => cases hid
      rw [List.pairwise_map]
      refine hsorted.imp_of_mem ?_
      intro p q hp hq hrel
      rw [idOf_of_jsMember (hkey p hp), idOf_of_jsMember (hkey q hq)]
      exact hrel

/-- Witness for the amended C4 at a concrete two-entry sort. -/
theorem c4_amended_witness :
    List.Pairwise (fun a b => localeCompare (idOf a) (idOf b) ≤ 0)
      [JVal.vobj [("id", "a")], JVal.vobj [("id", "b")]] :=
  c4_amended_sorted_by_collation [JVal.vobj [("id", "b")], JVal.vobj [("id", "a")]]
    [JVal.vobj [("id", "a")], JVal.vobj [("id", "b")]] (by decide)

/-- Whether one `key: value` field fits the 120-column bound after the
six columns of structural indentation and `": "`. -/
def fieldFits (kv : String × String) : Bool :=
  kv.1.length + kv.2.length + 6 ≤ 120

/-- Whether every line an item produces fits the 120-column bound. -/
def itemFits : JVal → Bool
  | .vobj fs => fs.all fieldFits
  | .vstr s => s.length + 4 ≤ 120
  | _ => true

theorem emitScalar_fits {pre cont v : String}
    (h : pre.length + v.length ≤ 120) : emitScalar pre cont v = [pre ++ v] := by
  unfold emitScalar
  rw [if_pos h]

theorem emitField_le (pre : String) (hpre : pre.length = 4)
    {kv : String × String} (hkv : fieldFits kv = true) :
    ∀ l ∈ emitField pre kv, l.length ≤ 120 := by
  intro l hl
  unfold fieldFits at hkv
  have hb : kv.1.length + kv.2.length + 6 ≤ 120 := of_decide_eq_true hkv
  have hfit : (pre ++ kv.1 ++ ": ").length + kv.2.length ≤ 120 := by
    simp only [String.length_append, hpre]
    have h2 : (": " : String).length = 2 := rfl
    rw [h2]
    omega
  unfold emitField at hl
  rw [emitScalar_fits hfit] at hl
  rcases List.mem_singleton.mp hl with rfl
  calc ((pre ++ kv.1 ++ ": ") ++ kv.2).length
      = (pre ++ kv.1 ++ ": ").length + kv.2.length := by
        rw [String.length_append]
    _ ≤ 120 := hfit

theorem emitItem_le {v : JVal} (hv : itemFits v = true) :
    ∀ l ∈ emitItem v, l.length ≤ 120 := by
  cases v with
  | vnull =>
    intro l hl
    rcases List.mem_singleton.mp hl with rfl
    decide
  | vundefined =>
    intro l hl
    rcases List.mem_singleton.mp hl with rfl
    decide
  | vstr s =>
    intro l hl
    simp only [itemFits] at hv
    have hb : s.length + 4 ≤ 120 := of_decide_eq_true hv
    have hfit : ("  - " : String).length + s.length ≤ 120 := by
      have h2 : ("  - " : String).length = 4 := rfl
      omega
    simp only [emitItem] at hl
    rw [emitScalar_fits hfit] at hl
    rcases List.mem_singleton.mp hl with rfl
    rw [String.length_append]
    have h2 : ("  - " : String).length = 4 := rfl
    omega
  | vobj fs =>
    simp only [itemFits] at hv
    rw [List.all_eq_true] at hv
    cases fs with
    | nil =>
      intro l hl
      rcases List.mem_singleton.mp hl with rfl
      decide
    | cons kv rest =>
      intro l hl
      simp only [emitItem] at hl
      rcases List.mem_append.mp hl with h1 | h2
      · exact emitField_le "  - " rfl (hv kv (List.mem_cons_self kv rest)) l h1
      · rcases List.mem_flatMap.mp h2 with ⟨kv2, hkv2, hlm⟩
        exact emitField_le "    " rfl (hv kv2 (List.mem_cons_of_mem kv hkv2)) l hlm

theorem linesOfItems_le {items : List JVal}
    (h : ∀ v ∈ items, itemFits v = true) :
    ∀ l ∈ linesOfItems items, l.length ≤ 120 := by
  induction items with
  | nil => intro l hl; cases hl
  | cons v vs ih =>
    intro l hl
    unfold linesOfItems at hl
    rcases List.mem_append.mp hl with h1 | h2
    · exact emitItem_le (h v (List.mem_cons_self v vs)) l h1
    · exact ih (fun w hw => h w (List.mem_cons_of_mem v hw)) l h2

set_option maxRecDepth 8192 in
/-- C7 (counterexample): the 120-column line width passed to the
serializer is NOT a hard bound on every output line — an entry whose
`id` is a single 130-character token yields an output line of 138
columns, because plain scalars can only fold at spaces. -/
theorem c7_counterexample :
    generate parseFlatYaml
        [⟨"long.yaml", "id: " ++ String.mk (List.replicate 130 'a')⟩] =
      .ok (docToString [JVal.vobj [("id", String.mk (List.replicate 130 'a'))]]) ∧
    (docLines [JVal.vobj [("id", String.mk (List.replicate 130 'a'))]]).any
      (fun l => decide (120 < l.length)) = true := by decide

/-- C7 as amended (proved): the output is one wrapped aggregate document
and the 120-column width is a soft bound — every line of the emitted
document respects it whenever each entry's fields fit within it
(folding, which happens only at spaces, is then never forced to
overflow); only a field whose unbreakable content exceeds the width
produces a longer line. -/
theorem c7_amended_soft_line_width (items : List JVal)
    (h : ∀ v ∈ items, itemFits v = true) :
    ∀ l ∈ docLines items, l.length ≤ 120 := by
  intro l hl
  unfold docLines at hl
  cases items with
  | nil =>
    rcases List.mem_singleton.mp hl with rfl
    decide
  | cons v vs =>
    rcases List.mem_cons.mp hl with rfl | hl2
    · decide
    · exact linesOfItems_le h l hl2

/-- Witness for the amended C7 at a concrete in-bounds document line. -/
theorem c7_amended_witness : ("  - id: a" : String).length ≤ 120 :=
  c7_amended_soft_line_width [JVal.vobj [("id", "a"), ("name", "alpha")]]
    (by decide) "  - id: a" (by decide)

/-- Modelled from the spec: the synchronization request's provenance pair,
`{repository, path}`, absent from src/ together with the whole
synchronization engine. -/
structure SourceRef where
  repository : String
  path : String
deriving DecidableEq, Repr

/-- Modelled from the spec: a skill's metadata mapping with the fields the
reconciliation precedence policy distinguishes (`metadata.category`,
`metadata.source`) plus the remaining fields, on which upstream wins
unconditionally. -/
structure SkillMetadata where
  category : Option String
  source : Option SourceRef
  extra : List (String × String)
deriving DecidableEq, Repr

/-- Modelled from the spec: one local skill record. -/
structure Skill where
  name : String
  metadata : SkillMetadata
  body : String
deriving DecidableEq, Repr

/-- Modelled from the spec: the per-skill synchronization errors. -/
inductive SyncErr where
  | upstreamPathNotFound
  | malformedMetadata
  | halfSpecifiedSource
deriving DecidableEq, Repr

/-- Modelled from the spec: assembling a metadata mapping from parsed
frontmatter fields; a `source` with only one of `repository`/`path` is a
validation error, not a partial state. -/
def buildMeta (fields : List (String × String)) : Except SyncErr SkillMetadata :=
  let cat := fields.lookup "category"
  let extra := fields.filter (fun kv =>
    kv.1 != "category" && kv.1 != "source.repository" && kv.1 != "source.path")
  match fields.lookup "source.repository", fields.lookup "source.path" with
  | some r, some p => .ok ⟨cat, some ⟨r, p⟩, extra⟩
  | none, none => .ok ⟨cat, none, extra⟩
  | _, _ => .error .halfSpecifiedSource

/-- Modelled from the spec: the Metadata Reader — given raw skill-document
text, separate the frontmatter (between `---` delimiters) from the body
and parse it into a metadata mapping, failing with a malformed-metadata
error when the delimiter or structure is absent or unparsable. -/
def metadataReader (doc : String) : Except SyncErr (SkillMetadata × String) :=
  match splitOnStr "---\n" doc with
  | "" :: fm :: rest =>
    if rest.isEmpty then .error .malformedMetadata
    else
      match mapME parseLine ((splitOnStr "\n" fm).filter (fun l => l != "")) with
      | .error _ => .error .malformedMetadata
      | .ok fields =>
        match buildMeta fields with
        | .error e => .error e
        | .ok m => .ok (m, String.intercalate "---\n" rest)
  | _ => .error .malformedMetadata

/-- Modelled from the spec: the metadata precedence policy of the
Reconciliation Engine — `category` falls back to the previously held
local value when upstream omits it, `source` is always overwritten to
the synchronization request's pair (upstream's own claim is discarded),
and every other field takes upstream's value. -/
def reconcileMetadata (req : SourceRef) (prevCategory : Option String)
    (upstream : SkillMetadata) : SkillMetadata :=
  { category :=
      match upstream.category with
      | some c => some c
      | none => prevCategory
    source := some req
    extra := upstream.extra }

/-- Modelled from the spec: reconciliation of one mirrored skill — verify
the fetched subtree has a metadata file, replace local content with the
upstream content, re-parse the metadata and apply the precedence
policy. -/
def reconcileSkill (req : SourceRef) (loc : Skill)
    (upstreamFiles : List (String × String)) : Except SyncErr Skill :=
  match upstreamFiles.lookup "SKILL.md" with
  | none => .error .upstreamPathNotFound
  | some doc =>
    match metadataReader doc with
    | .error e => .error e
    | .ok (um, body) =>
      .ok { name := loc.name
            metadata := reconcileMetadata req loc.metadata.category um
            body := body }

/-- C8 (confirmed, spec-modelled): after reconciliation of any mirrored
skill, the skill's `metadata.source` equals exactly the
`{repository, path}` pair of the synchronization request used to fetch
it; any `source` declared inside the fetched upstream content is
discarded and never becomes the local record's `source`. -/
theorem c8_source_overwrite (req : SourceRef) (loc : Skill)
    (upstreamFiles : List (String × String)) (sk : Skill)
    (h : reconcileSkill req loc upstreamFiles = .ok sk) :
    sk.metadata.source = some req := by
  unfold reconcileSkill at h
  split at h
  · cases h
  · split at h
    · cases h
    · cases h
      rfl

/-- Witness for C8: upstream frontmatter declaring a bogus `source` is
discarded; the reconciled record carries the request's pair. -/
theorem c8_witness :
    (Skill.mk "x"
      (SkillMetadata.mk (some "tools")
        (some (SourceRef.mk "https://github.com/real/repo" "skills/x"))
        [("name", "x")])
      "Body").metadata.source =
      some (SourceRef.mk "https://github.com/real/repo" "skills/x") :=
  c8_source_overwrite (SourceRef.mk "https://github.com/real/repo" "skills/x")
    (Skill.mk "x"
      (SkillMetadata.mk (some "tools")
        (some (SourceRef.mk "https://github.com/real/repo" "skills/x")) [])
      "old body")
    [("SKILL.md",
      "---\nname: x\nsource.repository: https://bogus.example\nsource.path: elsewhere\n---\nBody")]
    (Skill.mk "x"
      (SkillMetadata.mk (some "tools")
        (some (SourceRef.mk "https://github.com/real/repo" "skills/x"))
        [("name", "x")])
      "Body")
    (by decide)
